import Mathlib

/-!
Shallow embedding of the shogi rules engine of `shogistack`
(src/pages/GameRoom.tsx, logic section; src/utils/promotionUtils.ts),
together with theorems checking the natural-language specification
against it.  Definitions mirror the TypeScript source; coordinates are
`x ∈ [0,8]` (column) and `y ∈ [0,8]` (row), boards are 9×9 grids of
optional pieces.
-/

namespace Shogi

/-- The two players (src/types.ts `Player`). -/
inductive Player where
  | sente
  | gote
deriving DecidableEq, Fintype

/-- The other player (`currentTurn === 'sente' ? 'gote' : 'sente'`). -/
def Player.other : Player → Player
  | .sente => .gote
  | .gote => .sente

/-- The 14 piece kinds (src/types.ts `PieceType`). -/
inductive PieceType where
  | Pawn
  | Lance
  | Knight
  | Silver
  | Gold
  | Bishop
  | Rook
  | King
  | PromotedPawn
  | PromotedLance
  | PromotedKnight
  | PromotedSilver
  | Horse
  | Dragon
deriving DecidableEq, Fintype

/-- A piece on the board (src/types.ts `Piece`). -/
structure Piece where
  type : PieceType
  owner : Player
  isPromoted : Bool
deriving DecidableEq

/-- Board coordinates (src/types.ts `Coordinates`). -/
structure Coordinates where
  x : Nat
  y : Nat
deriving DecidableEq

/-- Per-move time data (src/types.ts `MoveTime`). -/
structure MoveTime where
  now : Nat
  total : Nat
deriving DecidableEq

/-- The `from` field of a move: either the string sentinel `'hand'` or
board coordinates (src/types.ts `Move.from`). -/
inductive FromField where
  | hand
  | coord (c : Coordinates)
deriving DecidableEq

/-- A move (src/types.ts `Move`); `fromSq` embeds the TS field `from`. -/
structure Move where
  fromSq : FromField
  toSq : Coordinates
  piece : PieceType
  drop : Bool
  isPromoted : Bool
  time : Option MoveTime := none
deriving DecidableEq

/-- A hand: count held per piece type (src/types.ts `Hand`,
`Record<PieceType, number>`; counts are non-negative per spec §3). -/
def Hand := PieceType → Nat

instance : DecidableEq Hand := by unfold Hand; infer_instance

/-- Both players' hands (`{ sente: Hand; gote: Hand }`). -/
structure Hands where
  sente : Hand
  gote : Hand
deriving DecidableEq

/-- Look up one player's hand (`hands[player]`). -/
def Hands.get (h : Hands) : Player → Hand
  | .sente => h.sente
  | .gote => h.gote

/-- Update one count in one player's hand (`hands[player][t] = f(...)`). -/
def Hands.modify (h : Hands) (pl : Player) (t : PieceType) (f : Nat → Nat) : Hands :=
  match pl with
  | .sente => { h with sente := Function.update h.sente t (f (h.sente t)) }
  | .gote => { h with gote := Function.update h.gote t (f (h.gote t)) }

/-- A board square, indexed `(row y, column x)`. -/
abbrev Square := Fin 9 × Fin 9

/-- The 9×9 board (src/types.ts `BoardState`); `board (y, x)` is the
cell in row `y`, column `x`. -/
def BoardState := Square → Option Piece

instance : DecidableEq BoardState := by unfold BoardState; infer_instance

/-- `board[y][x]` with the TS convention that out-of-range access yields
no piece (valid coordinates are always in range in the source). -/
def getCell (board : BoardState) (x y : Nat) : Option Piece :=
  if h : x < 9 ∧ y < 9 then board (⟨y, h.2⟩, ⟨x, h.1⟩) else none

/-- `board[y][x] = v`; out of range leaves the board unchanged. -/
def setCell (board : BoardState) (x y : Nat) (v : Option Piece) : BoardState :=
  if h : x < 9 ∧ y < 9 then Function.update board (⟨y, h.2⟩, ⟨x, h.1⟩) v else board

/-- `board[y][x]` at integer coordinates (used by the path walker). -/
def getCellI (board : BoardState) (x y : Int) : Option Piece :=
  if 0 ≤ x ∧ 0 ≤ y then getCell board x.toNat y.toNat else none

/-- All `(x, y)` squares in the scan order of the source's nested loops
(`y` outer 0..8, `x` inner 0..8). -/
def allSquaresYX : List (Nat × Nat) :=
  (List.range 9).flatMap fun y => (List.range 9).map fun x => (x, y)

/-- `getReversePieceType`: a promoted type reverts to its base type. -/
def getReversePieceType : PieceType → PieceType
  | .PromotedPawn => .Pawn
  | .PromotedLance => .Lance
  | .PromotedKnight => .Knight
  | .PromotedSilver => .Silver
  | .Horse => .Bishop
  | .Dragon => .Rook
  | t => t

/-- `promotePiece`: a base type promotes; others are unchanged. -/
def promotePiece : PieceType → PieceType
  | .Pawn => .PromotedPawn
  | .Lance => .PromotedLance
  | .Knight => .PromotedKnight
  | .Silver => .PromotedSilver
  | .Bishop => .Horse
  | .Rook => .Dragon
  | t => t

/-- The loop body of `hasObstacle`: walk from the current square toward
`(x2, y2)` in unit steps `(dx, dy)`, reporting an occupied intermediate
square.  The walk in the source runs at most 7 iterations (all call
sites are straight lines between in-range squares), so fuel 9 is exact. -/
def hasObstacleAux (board : BoardState) (dx dy x2 y2 : Int) :
    Nat → Int → Int → Bool
  | 0, _, _ => false
  | fuel + 1, x, y =>
    if x = x2 ∧ y = y2 then false
    else if (getCellI board x y).isSome then true
    else hasObstacleAux board dx dy x2 y2 fuel (x + dx) (y + dy)

/-- `hasObstacle(x1, y1, x2, y2, board)`. -/
def hasObstacle (x1 y1 x2 y2 : Nat) (board : BoardState) : Bool :=
  let dx := ((x2 : Int) - (x1 : Int)).sign
  let dy := ((y2 : Int) - (y1 : Int)).sign
  hasObstacleAux board dx dy x2 y2 9 ((x1 : Int) + dx) ((y1 : Int) + dy)

/-- `canPieceMoveTo(board, from, to, pieceObj, currentTurn)`: purely
geometric reachability. -/
def canPieceMoveTo (board : BoardState) (fromC toC : Coordinates)
    (pieceObj : Piece) (currentTurn : Player) : Bool :=
  let dx : Int := (toC.x : Int) - (fromC.x : Int)
  let dy : Int := (toC.y : Int) - (fromC.y : Int)
  let forward : Int := if currentTurn = .sente then -1 else 1
  let promoted := pieceObj.isPromoted
  let goldMove : Bool :=
    (dx.natAbs = 1 ∧ dy = 0) ∨ (dx.natAbs = 0 ∧ dy.natAbs = 1) ∨
      (dx.natAbs = 1 ∧ dy = forward)
  match pieceObj.type with
  | .Pawn => if !promoted then dx = 0 ∧ dy = forward else goldMove
  | .King => dx.natAbs ≤ 1 ∧ dy.natAbs ≤ 1
  | .Gold => goldMove
  | .Silver =>
    if promoted then goldMove
    else (dx.natAbs ≤ 1 ∧ dy = forward) ∨ (dx.natAbs = 1 ∧ dy = -forward)
  | .Knight =>
    if promoted then goldMove else dx.natAbs = 1 ∧ dy = forward * 2
  | .Lance =>
    if promoted then goldMove
    else if dx ≠ 0 then false
    else if (if currentTurn = .sente then 0 ≤ dy else dy ≤ 0) then false
    else !hasObstacle fromC.x fromC.y toC.x toC.y board
  | .Bishop =>
    if dx.natAbs = dy.natAbs then !hasObstacle fromC.x fromC.y toC.x toC.y board
    else if promoted ∧ dx.natAbs + dy.natAbs = 1 then true
    else false
  | .Horse =>
    if dx.natAbs = dy.natAbs then !hasObstacle fromC.x fromC.y toC.x toC.y board
    else if promoted ∧ dx.natAbs + dy.natAbs = 1 then true
    else false
  | .Rook =>
    if dx = 0 ∨ dy = 0 then !hasObstacle fromC.x fromC.y toC.x toC.y board
    else if promoted ∧ dx.natAbs ≤ 1 ∧ dy.natAbs ≤ 1 then true
    else false
  | .Dragon =>
    if dx = 0 ∨ dy = 0 then !hasObstacle fromC.x fromC.y toC.x toC.y board
    else if promoted ∧ dx.natAbs ≤ 1 ∧ dy.natAbs ≤ 1 then true
    else false
  | _ => goldMove

/-- Result of `applyMove`: `{ board, hands, turn }`. -/
structure ApplyResult where
  board : BoardState
  hands : Hands
  turn : Player
deriving DecidableEq

/-- `applyMove(currentBoard, currentHands, move, currentTurn)`.  The TS
function deep-copies board and hands and then mutates the copy; the
embedding returns the updated values directly. -/
def applyMove (currentBoard : BoardState) (currentHands : Hands)
    (move : Move) (currentTurn : Player) : ApplyResult :=
  let nextTurn := currentTurn.other
  if move.drop then
    match move.fromSq with
    | .hand =>
      { board := setCell currentBoard move.toSq.x move.toSq.y
          (some ⟨move.piece, currentTurn, false⟩)
        hands := currentHands.modify currentTurn move.piece (· - 1)
        turn := nextTurn }
    | .coord _ => { board := currentBoard, hands := currentHands, turn := nextTurn }
  else
    match move.fromSq with
    | .hand =>
      -- TS casts `from` to Coordinates; a string here would fault, and the
      -- legality checker rejects this shape before `applyMove` is reached.
      { board := currentBoard, hands := currentHands, turn := nextTurn }
    | .coord fromC =>
      match getCell currentBoard fromC.x fromC.y with
      | none => { board := currentBoard, hands := currentHands, turn := nextTurn }
      | some piece =>
        let hands1 :=
          match getCell currentBoard move.toSq.x move.toSq.y with
          | some targetSquare =>
            currentHands.modify currentTurn
              (getReversePieceType targetSquare.type) (· + 1)
          | none => currentHands
        let newType := if move.isPromoted then promotePiece piece.type else piece.type
        let b1 := setCell currentBoard move.toSq.x move.toSq.y
          (some ⟨newType, piece.owner, move.isPromoted || piece.isPromoted⟩)
        let b2 := setCell b1 fromC.x fromC.y none
        { board := b2, hands := hands1, turn := nextTurn }

/-- `isKingInCheck(board, targetTurn)`: find the target's king in scan
order, then test whether any opposing piece reaches it. -/
def isKingInCheck (board : BoardState) (targetTurn : Player) : Bool :=
  let attackerTurn := targetTurn.other
  match allSquaresYX.find? (fun sq =>
      match getCell board sq.1 sq.2 with
      | some p => p.type = PieceType.King ∧ p.owner = targetTurn
      | none => false) with
  | none => false
  | some kingPos =>
    allSquaresYX.any fun sq =>
      match getCell board sq.1 sq.2 with
      | some p =>
        decide (p.owner = attackerTurn) &&
          canPieceMoveTo board ⟨sq.1, sq.2⟩ ⟨kingPos.1, kingPos.2⟩ p attackerTurn
      | none => false

/-- Nifu scan: does the mover already have an unpromoted Pawn anywhere
in column `x`?  (`isValidMove`'s two-pawn loop.) -/
def hasOwnUnpromotedPawnOnFile (board : BoardState) (turn : Player) (x : Nat) : Bool :=
  (List.range 9).any fun y =>
    match getCell board x y with
    | some p => p.owner = turn ∧ p.type = PieceType.Pawn ∧ !p.isPromoted
    | none => false

/-- Drop placement restriction (`isValidMove`'s "piece with no future
move" checks for Pawn/Lance/Knight drops). -/
def dropPlacementOk (turn : Player) (piece : PieceType) (toC : Coordinates) : Bool :=
  match turn with
  | .sente =>
    !((piece = PieceType.Pawn ∨ piece = PieceType.Lance) ∧ toC.y = 0) &&
      !(piece = PieceType.Knight ∧ toC.y ≤ 1)
  | .gote =>
    !((piece = PieceType.Pawn ∨ piece = PieceType.Lance) ∧ toC.y = 8) &&
      !(piece = PieceType.Knight ∧ 7 ≤ toC.y)

/-- The steps of `isValidMove` up to and including the self-check test,
i.e. everything except the pawn-drop-mate step; this is exactly what
`isValidMove(..., checkUchiFuzume=false)` computes. -/
def isValidMoveCore (board : BoardState) (hands : Hands) (currentTurn : Player)
    (move : Move) : Bool :=
  (move.toSq.x ≤ 8 ∧ move.toSq.y ≤ 8) &&
  (match getCell board move.toSq.x move.toSq.y with
   | some targetPiece => decide ¬(targetPiece.owner = currentTurn)
   | none => true) &&
  (if move.drop then
    (getCell board move.toSq.x move.toSq.y).isNone &&
    decide (0 < hands.get currentTurn move.piece) &&
    !(decide (move.piece = PieceType.Pawn) &&
        hasOwnUnpromotedPawnOnFile board currentTurn move.toSq.x) &&
    dropPlacementOk currentTurn move.piece move.toSq
  else
    match move.fromSq with
    | .hand => false
    | .coord fromC =>
      match getCell board fromC.x fromC.y with
      | none => false
      | some movingPiece =>
        decide (movingPiece.owner = currentTurn) &&
          canPieceMoveTo board fromC move.toSq movingPiece currentTurn) &&
  !isKingInCheck (applyMove board hands move currentTurn).board currentTurn

/-- `Object.keys(hand)` in the declaration order of the hand record. -/
def allPieceTypes : List PieceType :=
  [.Pawn, .Lance, .Knight, .Silver, .Gold, .Bishop, .Rook, .King,
   .PromotedPawn, .PromotedLance, .PromotedKnight, .PromotedSilver, .Horse, .Dragon]

/-- Piece types eligible for a promoting trial move in `hasLegalMoves`. -/
def canPromoteTypes : List PieceType :=
  [.Pawn, .Lance, .Knight, .Silver, .Bishop, .Rook]

/-- `hasLegalMoves(board, hands, turn)`: tries every board move (plain
and, in the promotion zone, promoting) and every drop, validating each
with `isValidMove(..., checkUchiFuzume=false)` — embedded here as
`isValidMoveCore` to break the recursion exactly as the source does. -/
def hasLegalMoves (board : BoardState) (hands : Hands) (turn : Player) : Bool :=
  (allSquaresYX.any fun sq =>
    match getCell board sq.1 sq.2 with
    | some p =>
      decide (p.owner = turn) &&
      allSquaresYX.any fun tsq =>
        (match getCell board tsq.1 tsq.2 with
         | some q => decide ¬(q.owner = turn)
         | none => true) &&
        canPieceMoveTo board ⟨sq.1, sq.2⟩ ⟨tsq.1, tsq.2⟩ p turn &&
        (let move : Move :=
          { fromSq := .coord ⟨sq.1, sq.2⟩, toSq := ⟨tsq.1, tsq.2⟩,
            piece := p.type, drop := false, isPromoted := false }
         isValidMoveCore board hands turn move ||
           (decide (p.type ∈ canPromoteTypes) &&
            (if turn = .sente then decide (sq.2 ≤ 2 ∨ tsq.2 ≤ 2)
             else decide (6 ≤ sq.2 ∨ 6 ≤ tsq.2)) &&
            isValidMoveCore board hands turn { move with isPromoted := true }))
    | none => false) ||
  (allPieceTypes.any fun pieceType =>
    decide (0 < hands.get turn pieceType) &&
    allSquaresYX.any fun tsq =>
      (getCell board tsq.1 tsq.2).isNone &&
      isValidMoveCore board hands turn
        { fromSq := .hand, toSq := ⟨tsq.1, tsq.2⟩,
          piece := pieceType, drop := true, isPromoted := false })

/-- `isValidMove(board, hands, currentTurn, move, checkUchiFuzume=true)`. -/
def isValidMove (board : BoardState) (hands : Hands) (currentTurn : Player)
    (move : Move) (checkUchiFuzume : Bool := true) : Bool :=
  isValidMoveCore board hands currentTurn move &&
  (if checkUchiFuzume && move.drop && decide (move.piece = PieceType.Pawn) then
    let next := applyMove board hands move currentTurn
    let nextTurn := currentTurn.other
    !(isKingInCheck next.board nextTurn && !hasLegalMoves next.board next.hands nextTurn)
  else true)

/-- `isCheckmate(board, hands, turn)`. -/
def isCheckmate (board : BoardState) (hands : Hands) (turn : Player) : Bool :=
  isKingInCheck board turn && !hasLegalMoves board hands turn

end Shogi

namespace Shogi

/-- The empty 9×9 board every game starts from (`Array(9).fill(null)`). -/
def emptyBoard : BoardState := fun _ => none

/-- One `place(x, y, type, owner)` call of `createInitialBoard`. -/
def place (b : BoardState) (x y : Nat) (t : PieceType) (o : Player) : BoardState :=
  setCell b x y (some ⟨t, o, false⟩)

/-- `createInitialBoard()`: the standard starting position. -/
def createInitialBoard : BoardState :=
  let b := emptyBoard
  let b := place b 0 0 .Lance .gote
  let b := place b 1 0 .Knight .gote
  let b := place b 2 0 .Silver .gote
  let b := place b 3 0 .Gold .gote
  let b := place b 4 0 .King .gote
  let b := place b 5 0 .Gold .gote
  let b := place b 6 0 .Silver .gote
  let b := place b 7 0 .Knight .gote
  let b := place b 8 0 .Lance .gote
  let b := place b 1 1 .Rook .gote
  let b := place b 7 1 .Bishop .gote
  let b := (List.range 9).foldl (fun b i => place b i 2 .Pawn .gote) b
  let b := place b 0 8 .Lance .sente
  let b := place b 1 8 .Knight .sente
  let b := place b 2 8 .Silver .sente
  let b := place b 3 8 .Gold .sente
  let b := place b 4 8 .King .sente
  let b := place b 5 8 .Gold .sente
  let b := place b 6 8 .Silver .sente
  let b := place b 7 8 .Knight .sente
  let b := place b 8 8 .Lance .sente
  let b := place b 7 7 .Rook .sente
  let b := place b 1 7 .Bishop .sente
  (List.range 9).foldl (fun b i => place b i 6 .Pawn .sente) b

/-- The hand with no pieces (`EMPTY_HAND`). -/
def emptyHand : Hand := fun _ => 0

/-- Both hands empty. -/
def emptyHands : Hands := ⟨emptyHand, emptyHand⟩

/-- JS `toUpperCase` restricted to ASCII, as applied to the SFEN
letters (kernel-reducible replacement for `String.toUpper`). -/
def asciiUpper (c : Char) : Char :=
  if 'a' ≤ c ∧ c ≤ 'z' then Char.ofNat (c.toNat - 32) else c

/-- Uppercase an ASCII string (JS `.toUpperCase()`). -/
def strUpper (s : String) : String := ⟨s.data.map asciiUpper⟩

/-- `SFEN_MAP`: SFEN letter (lowercase, `+`-prefixed when promoted). -/
def sfenChar : PieceType → String
  | .Pawn => "p"
  | .Lance => "l"
  | .Knight => "n"
  | .Silver => "s"
  | .Gold => "g"
  | .Bishop => "b"
  | .Rook => "r"
  | .King => "k"
  | .PromotedPawn => "+p"
  | .PromotedLance => "+l"
  | .PromotedKnight => "+n"
  | .PromotedSilver => "+s"
  | .Horse => "+b"
  | .Dragon => "+r"

/-- One row of the SFEN board field: pieces left to right with
run-length-encoded empty squares (`generateSFEN`'s inner loop). -/
def sfenRow (board : BoardState) (y : Nat) : String :=
  let acc := (List.range 9).foldl (fun (acc : String × Nat) x =>
    match getCell board x y with
    | none => (acc.1, acc.2 + 1)
    | some p =>
      let s := if 0 < acc.2 then acc.1 ++ toString acc.2 else acc.1
      let c := sfenChar p.type
      let c := if p.owner = .sente then strUpper c else c
      (s ++ c, 0)) ("", 0)
  if 0 < acc.2 then acc.1 ++ toString acc.2 else acc.1

/-- Hand-piece emission order of the SFEN hand field. -/
def sfenHandOrder : List PieceType :=
  [.Rook, .Bishop, .Gold, .Silver, .Knight, .Lance, .Pawn]

/-- One player's part of the SFEN hand field. -/
def sfenHandPart (hands : Hands) (pl : Player) (upper : Bool) : String :=
  sfenHandOrder.foldl (fun s t =>
    let count := hands.get pl t
    if 0 < count then
      (if 1 < count then s ++ toString count else s) ++
        (if upper then strUpper (sfenChar t) else sfenChar t)
    else s) ""

/-- `generateSFEN(board, turn, hands)`. -/
def generateSFEN (board : BoardState) (turn : Player) (hands : Hands) : String :=
  let boardPart := (List.range 9).foldl (fun s y =>
    s ++ sfenRow board y ++ if y < 8 then "/" else "") ""
  let handStr := sfenHandPart hands .sente true ++ sfenHandPart hands .gote false
  let handStr := if handStr = "" then "-" else handStr
  boardPart ++ " " ++ (if turn = .sente then "b" else "w") ++ " " ++ handStr ++ " 1"

/-- `PIECE_POINTS`: nyugyoku point value per piece type. -/
def piecePoints : PieceType → Nat
  | .King => 0
  | .Bishop => 5
  | .Rook => 5
  | .Horse => 5
  | .Dragon => 5
  | _ => 1

/-- Result record of `getNyugyokuState`. -/
structure NyugyokuState where
  score : Nat
  piecesInZone : Nat
  kingInZone : Bool
  canDeclare : Bool
  requiredScore : Nat
deriving DecidableEq

/-- The opposing camp test of `getNyugyokuState` (`isZone`): rows 0–2
for sente, rows 6–8 for gote. -/
def nyugyokuIsZone (player : Player) (y : Nat) : Bool :=
  if player = .sente then decide (y ≤ 2) else decide (6 ≤ y)

/-- The board-scan body of `getNyugyokuState`, accumulating
`(score, piecesInZone, kingInZone)`. -/
def nyugyokuStep (board : BoardState) (player : Player)
    (acc : Nat × Nat × Bool) (sq : Nat × Nat) : Nat × Nat × Bool :=
  match getCell board sq.1 sq.2 with
  | some p =>
    if p.owner = player then
      if p.type = PieceType.King then (acc.1, acc.2.1, acc.2.2 || nyugyokuIsZone player sq.2)
      else if nyugyokuIsZone player sq.2 then (acc.1 + piecePoints p.type, acc.2.1 + 1, acc.2.2)
      else acc
    else acc
  | none => acc

/-- The hand-scan body of `getNyugyokuState`: add `count × points` for
every held type with a positive count. -/
def nyugyokuHandStep (hands : Hands) (player : Player) (s : Nat) (t : PieceType) : Nat :=
  let count := hands.get player t
  if 0 < count then s + count * piecePoints t else s

/-- `getNyugyokuState(board, hands, player)`: entering-king declaration
scoring.  The board scan accumulates `(score, piecesInZone, kingInZone)`
exactly as the source's loop does; the hand loop then adds
`count × points` for every held type with a positive count. -/
def getNyugyokuState (board : BoardState) (hands : Hands) (player : Player) :
    NyugyokuState :=
  let acc := allSquaresYX.foldl (nyugyokuStep board player) (0, 0, false)
  let handScore := allPieceTypes.foldl (nyugyokuHandStep hands player) 0
  let score := acc.1 + handScore
  let requiredScore := if player = .sente then 28 else 27
  let canDeclare :=
    acc.2.2 && decide (10 ≤ acc.2.1) && decide (requiredScore ≤ score)
  { score := score, piecesInZone := acc.2.1, kingInZone := acc.2.2,
    canDeclare := canDeclare, requiredScore := requiredScore }

/-- `padStart(n, c)` of JS strings (pad on the left up to length `n`). -/
def padStartStr (s : String) (n : Nat) (c : Char) : String :=
  String.mk (List.replicate (n - s.length) c) ++ s

/-- `padEnd(n, c)` of JS strings (pad on the right up to length `n`). -/
def padEndStr (s : String) (n : Nat) (c : Char) : String :=
  s ++ String.mk (List.replicate (n - s.length) c)

/-- `formatKifTime(seconds)`: `m:ss` with the minutes field padded to
width 2 with a **space** and the seconds zero-padded. -/
def formatKifTime (seconds : Nat) : String :=
  padStartStr (toString (seconds / 60)) 2 ' ' ++ ":" ++
    padStartStr (toString (seconds % 60)) 2 '0'

/-- `formatKifTotalTime(seconds)`: zero-padded `HH:MM:SS`. -/
def formatKifTotalTime (seconds : Nat) : String :=
  padStartStr (toString (seconds / 3600)) 2 '0' ++ ":" ++
    padStartStr (toString (seconds % 3600 / 60)) 2 '0' ++ ":" ++
    padStartStr (toString (seconds % 60)) 2 '0'

/-- The per-ply time field of `exportKIF`:
`( ${formatKifTime(nowTime)}/${formatKifTotalTime(totalTime)})` with
zeros when the move carries no time data. -/
def kifTimeStr (t : Option MoveTime) : String :=
  let nowTime := match t with | some mt => mt.now | none => 0
  let totalTime := match t with | some mt => mt.total | none => 0
  "( " ++ formatKifTime nowTime ++ "/" ++ formatKifTotalTime totalTime ++ ")"

/-- Kanji name per piece type (`exportKIF`'s switch). -/
def pieceKanji : PieceType → String
  | .Pawn => "歩"
  | .Lance => "香"
  | .Knight => "桂"
  | .Silver => "銀"
  | .Gold => "金"
  | .Bishop => "角"
  | .Rook => "飛"
  | .King => "玉"
  | .PromotedPawn => "と"
  | .PromotedLance => "成香"
  | .PromotedKnight => "成桂"
  | .PromotedSilver => "成銀"
  | .Horse => "馬"
  | .Dragon => "龍"

/-- One ply line of the KIF body (`exportKIF`'s forEach body). -/
def kifMoveLine (num : Nat) (prevMove : Option Move) (move : Move) : String :=
  let paddedNum := padStartStr (toString num) 4 ' '
  let toX := (["１", "２", "３", "４", "５", "６", "７", "８", "９"].getD
    (9 - (move.toSq.x + 1)) "")
  let toY := (["一", "二", "三", "四", "五", "六", "七", "八", "九"].getD
    move.toSq.y "")
  let pieceName := pieceKanji move.piece
  let moveStr :=
    match prevMove with
    | some pm =>
      if pm.toSq.x = move.toSq.x ∧ pm.toSq.y = move.toSq.y then "同　" ++ pieceName
      else toX ++ toY ++ pieceName
    | none => toX ++ toY ++ pieceName
  let moveStr :=
    if move.drop then moveStr ++ "打"
    else if move.isPromoted then moveStr ++ "成"
    else moveStr
  let fromStr :=
    if move.drop then ""
    else
      match move.fromSq with
      | .coord c => "(" ++ toString (9 - c.x) ++ toString (c.y + 1) ++ ")"
      | .hand => ""
  paddedNum ++ " " ++ padEndStr (moveStr ++ fromStr) 16 ' ' ++ " " ++
    kifTimeStr move.time ++ "\n"

/-- The KIF body: one line per ply, each remembering the previous move
for the "same square" marker. -/
def kifBodyAux : Nat → Option Move → List Move → String
  | _, _, [] => ""
  | num, prev, m :: rest => kifMoveLine num prev m ++ kifBodyAux (num + 1) (some m) rest

/-- Time-control settings passed to `exportKIF`. -/
structure TimeSettings where
  initial : Nat
  byoyomi : Nat
deriving DecidableEq

/-- A per-player pair of clock values. -/
structure PlayerTimes where
  sente : Nat
  gote : Nat
deriving DecidableEq

/-- Look up one player's clock value. -/
def PlayerTimes.get (t : PlayerTimes) : Player → Nat
  | .sente => t.sente
  | .gote => t.gote

/-- The loser's cumulative think time recorded in the last of their
moves (`exportKIF`'s backward scan over `history`). -/
def loserPrevTotal (history : List Move) (loser : Player) : Nat :=
  match ((List.range history.length).reverse.find? fun i =>
      (if i % 2 = 0 then Player.sente else Player.gote) = loser) with
  | some i =>
    match history.get? i with
    | some m => (match m.time with | some t => t.total | none => 0)
    | none => 0
  | none => 0

/-- The terminal-event line parameters of `exportKIF` (`endStr` and the
final `timeStr`). -/
def kifEndLine (history : List Move) (winner : Option Player)
    (endReason : String) (timeSettings : Option TimeSettings)
    (remainingTimes remainingByoyomi : Option PlayerTimes) : String × String :=
  let defaultTime := "( 0:00/00:00:00)"
  if endReason = "resign" ∨ endReason = "timeout" then
    let endStr := if endReason = "resign" then "投了" else "切れ負け"
    match winner, timeSettings, remainingTimes, remainingByoyomi with
    | some w, some ts, some rt, some rb =>
      let loser := w.other
      let prevTotal := loserPrevTotal history loser
      let pair :=
        if 0 < rt.get loser then
          let consumed := ts.initial - rt.get loser
          (consumed - prevTotal, consumed)
        else if 0 < ts.byoyomi then
          let used := ts.byoyomi - rb.get loser
          (used, prevTotal + used)
        else
          (ts.initial - prevTotal, ts.initial)
      (endStr, "( " ++ formatKifTime pair.1 ++ "/" ++ formatKifTotalTime pair.2 ++ ")")
    | _, _, _, _ => (endStr, defaultTime)
  else if endReason = "sennichite" then ("千日手", defaultTime)
  else if endReason = "illegal_sennichite" then ("反則負け", defaultTime)
  else if endReason = "try" then ("入玉宣言勝ち", defaultTime)
  else if endReason = "checkmate" then ("詰み", defaultTime)
  else ("", defaultTime)

/-- `exportKIF(history, initialBoard, senteName, goteName, winner,
endReason, timeSettings, remainingTimes, remainingByoyomi)`. -/
def exportKIF (history : List Move) (_initialBoard : BoardState)
    (senteName goteName : Option String) (winner : Option Player)
    (endReason : Option String) (timeSettings : Option TimeSettings)
    (remainingTimes remainingByoyomi : Option PlayerTimes) : String :=
  let header := "手合割：平手\n先手：" ++ senteName.getD "不明" ++ "\n後手：" ++
    goteName.getD "不明" ++ "\n手数----指手---------消費時間--"
  let body := kifBodyAux 1 none history
  let body :=
    match endReason with
    | none => body
    | some reason =>
      let pair := kifEndLine history winner reason timeSettings
        remainingTimes remainingByoyomi
      if pair.1 = "" then body
      else
        body ++ padStartStr (toString (history.length + 1)) 4 ' ' ++ " " ++
          padEndStr pair.1 16 ' ' ++ " " ++ pair.2 ++ "\n"
  let resultStr :=
    match winner with
    | some w =>
      "まで" ++ toString history.length ++ "手で" ++
        (if w = .sente then "先手" else "後手") ++ "の勝ち"
    | none =>
      if endReason = some "sennichite" then
        "まで" ++ toString history.length ++ "手で千日手"
      else ""
  header ++ "\n" ++ body ++ resultStr ++ "\n"

/-- The three statuses of `getPromotionStatus`. -/
inductive PromotionStatus where
  | must
  | can
  | none
deriving DecidableEq

/-- Modelled from the spec: `SENTE_PROMOTION_ZONE` lives in
src/constants.ts, which is absent from the sources; per spec §4.6 the
promotion zone for a sente mover is rows 0–2. -/
def SENTE_PROMOTION_ZONE : List Nat := [0, 1, 2]

/-- Modelled from the spec: `GOTE_PROMOTION_ZONE` lives in
src/constants.ts, which is absent from the sources; per spec §4.6 the
promotion zone for a gote mover is rows 6–8. -/
def GOTE_PROMOTION_ZONE : List Nat := [6, 7, 8]

/-- `getPromotionStatus(pieceType, fromY, toY, turn)`
(src/utils/promotionUtils.ts). -/
def getPromotionStatus (pieceType : PieceType) (fromY toY : Nat)
    (turn : Player) : PromotionStatus :=
  if pieceType = PieceType.Gold ∨ pieceType = PieceType.King then .none
  else if pieceType ∈ ([.PromotedPawn, .PromotedLance, .PromotedKnight,
      .PromotedSilver, .Horse, .Dragon] : List PieceType) then .none
  else if (match turn with
    | .sente =>
      ((pieceType = PieceType.Pawn ∨ pieceType = PieceType.Lance) ∧ toY = 0) ∨
        (pieceType = PieceType.Knight ∧ toY ≤ 1)
    | .gote =>
      ((pieceType = PieceType.Pawn ∨ pieceType = PieceType.Lance) ∧ toY = 8) ∨
        (pieceType = PieceType.Knight ∧ 7 ≤ toY) : Bool) then .must
  else
    let zone := if turn = .sente then SENTE_PROMOTION_ZONE else GOTE_PROMOTION_ZONE
    if toY ∈ zone ∨ fromY ∈ zone then .can else .none

end Shogi

namespace Shogi

/-- A `getCell` hit implies in-range coordinates. -/
theorem getCell_some_lt {board : BoardState} {x y : Nat} {p : Piece}
    (h : getCell board x y = some p) : x < 9 ∧ y < 9 := by
  by_contra hc
  rw [getCell, dif_neg hc] at h
  exact Option.noConfusion h

/-- With the pawn-drop-mate flag off, `isValidMove` is exactly the core
checks (the source's recursion guard). -/
theorem isValidMove_false_eq_core (board : BoardState) (hands : Hands)
    (turn : Player) (m : Move) :
    isValidMove board hands turn m false = isValidMoveCore board hands turn m := by
  simp [isValidMove]

/-- The sente pawn push 5g5f from the starting position. -/
def pawnPush : Move :=
  { fromSq := .coord ⟨4, 6⟩, toSq := ⟨4, 5⟩, piece := .Pawn,
    drop := false, isPromoted := false }

/-- C1: a move accepted by `isValidMove` (either flag value) never
leaves the mover's own king in check after `applyMove`. -/
theorem c1_no_self_check (board : BoardState) (hands : Hands) (turn : Player)
    (m : Move) (flag : Bool)
    (h : isValidMove board hands turn m flag = true) :
    isKingInCheck (applyMove board hands m turn).board turn = false := by
  unfold isValidMove isValidMoveCore at h
  simp only [Bool.and_eq_true, Bool.not_eq_true'] at h
  exact h.1.2

/-- C1 witness: the initial pawn push is legal and leaves sente's king
safe. -/
theorem c1_no_self_check_witness :
    isValidMove createInitialBoard emptyHands .sente pawnPush true = true ∧
      isKingInCheck (applyMove createInitialBoard emptyHands pawnPush .sente).board
        .sente = false :=
  ⟨by decide, c1_no_self_check _ _ _ _ true (by decide)⟩

/-- C10: the SFEN string always ends in the constant move-number field
`" 1"`. -/
theorem c10_sfen_move_number (board : BoardState) (turn : Player) (hands : Hands) :
    ∃ s, generateSFEN board turn hands = s ++ " 1" :=
  ⟨_, rfl⟩

/-- C7: SFEN of the standard initial position with sente to move and
empty hands. -/
theorem c7_initial_sfen :
    generateSFEN createInitialBoard .sente emptyHands =
      "lnsgkgsnl/1r5b1/ppppppppp/9/9/9/PPPPPPPPP/1B5R1/LNSGKGSNL b - 1" := by
  decide

/-- C9: `applyMove` on a non-drop move from an empty square, or on a
drop whose `from` field is coordinates, returns the unchanged board and
hands with only the turn flipped. -/
theorem c9_apply_move_frame (board : BoardState) (hands : Hands) (turn : Player)
    (m : Move)
    (h : (m.drop = false ∧ ∃ c, m.fromSq = FromField.coord c ∧
            getCell board c.x c.y = none) ∨
         (m.drop = true ∧ ∃ c, m.fromSq = FromField.coord c)) :
    applyMove board hands m turn = ⟨board, hands, turn.other⟩ := by
  rcases h with ⟨hd, c, hf, hcell⟩ | ⟨hd, c, hf⟩
  · simp [applyMove, hd, hf, hcell]
  · simp [applyMove, hd, hf]

/-- C9 witness: a drop-flagged move with coordinate `from` leaves the
empty position untouched. -/
theorem c9_apply_move_frame_witness :
    applyMove emptyBoard emptyHands
      { fromSq := .coord ⟨3, 3⟩, toSq := ⟨4, 4⟩, piece := .Pawn,
        drop := true, isPromoted := false } .sente =
      ⟨emptyBoard, emptyHands, .gote⟩ :=
  c9_apply_move_frame emptyBoard emptyHands .sente _ (Or.inr ⟨rfl, ⟨3, 3⟩, rfl⟩)

end Shogi

namespace Shogi

/-- A hand holding exactly one Pawn. -/
def onePawnHand : Hands := ⟨Function.update emptyHand .Pawn 1, emptyHand⟩

/-- C4: with one of the mover's unpromoted Pawns already in file `f`,
any Pawn drop by that mover into file `f` is rejected, whatever the
destination rank and either flag value. -/
theorem c4_nifu (board : BoardState) (hands : Hands) (mover : Player)
    (m : Move) (flag : Bool) (f y0 : Nat) (p : Piece)
    (hcell : getCell board f y0 = some p) (hown : p.owner = mover)
    (htype : p.type = PieceType.Pawn) (hprom : p.isPromoted = false)
    (hdrop : m.drop = true) (hpiece : m.piece = PieceType.Pawn)
    (hx : m.toSq.x = f) :
    isValidMove board hands mover m flag = false := by
  have hnifu : hasOwnUnpromotedPawnOnFile board mover m.toSq.x = true := by
    rw [hx]
    unfold hasOwnUnpromotedPawnOnFile
    rw [List.any_eq_true]
    refine ⟨y0, List.mem_range.2 (getCell_some_lt hcell).2, ?_⟩
    simp [hcell, hown, htype, hprom]
  unfold isValidMove isValidMoveCore
  simp [hdrop, hpiece, hnifu]

/-- The C4 scenario: kings apart, a sente Pawn on file 4. -/
def c4Board : BoardState :=
  place (place (place emptyBoard 4 8 .King .sente) 8 0 .King .gote) 4 6 .Pawn .sente

/-- C4 witness: dropping a second sente Pawn on file 4 is rejected. -/
theorem c4_nifu_witness :
    isValidMove c4Board onePawnHand .sente
      { fromSq := .hand, toSq := ⟨4, 3⟩, piece := .Pawn,
        drop := true, isPromoted := false } true = false :=
  c4_nifu c4Board onePawnHand .sente _ true 4 6 ⟨.Pawn, .sente, false⟩
    (by decide) rfl rfl rfl rfl rfl rfl

/-- The C5 scenario: a sente Knight on (1,2), kings far apart. -/
def c5Board : BoardState :=
  place (place (place emptyBoard 4 8 .King .sente) 8 0 .King .gote) 1 2 .Knight .sente

/-- The C5 move: the Knight jumps to (0,0) without promoting. -/
def c5Move : Move :=
  { fromSq := .coord ⟨1, 2⟩, toSq := ⟨0, 0⟩, piece := .Knight,
    drop := false, isPromoted := false }

/-- C5 counterexample: `getPromotionStatus` does answer `must` for a
sente Knight landing on rank 0, yet `isValidMove` accepts the
corresponding non-promoting board move — the claimed rejection does not
happen. -/
theorem c5_counterexample :
    getPromotionStatus .Knight 2 0 .sente = .must ∧
      isValidMove c5Board emptyHands .sente c5Move true = true := by
  decide

/-- C5 (amended): `getPromotionStatus` classifies every sente Knight
move to rank ≤ 1 as forced promotion; `isValidMove` itself does not
enforce promotion (see the counterexample). -/
theorem c5_amended_promotion_status (fromY toY : Nat) (h : toY ≤ 1) :
    getPromotionStatus .Knight fromY toY .sente = .must := by
  simp [getPromotionStatus, h]

/-- C5 amended witness. -/
theorem c5_amended_promotion_status_witness :
    getPromotionStatus .Knight 2 0 .sente = .must :=
  c5_amended_promotion_status 2 0 (by decide)

/-- C2: for a Pawn drop that passes every other legality step, the
pawn-drop-mate step rejects it exactly when it checks the opponent and
`hasLegalMoves` (whose candidate checks run with the flag off) finds no
response; a checking Pawn drop with some response is not rejected. -/
theorem c2_uchifuzume (board : BoardState) (hands : Hands) (turn : Player)
    (m : Move) (hdrop : m.drop = true) (hpawn : m.piece = PieceType.Pawn)
    (hpass : isValidMove board hands turn m false = true) :
    (isKingInCheck (applyMove board hands m turn).board turn.other = true ∧
        hasLegalMoves (applyMove board hands m turn).board
          (applyMove board hands m turn).hands turn.other = false →
      isValidMove board hands turn m true = false) ∧
    (isKingInCheck (applyMove board hands m turn).board turn.other = true ∧
        hasLegalMoves (applyMove board hands m turn).board
          (applyMove board hands m turn).hands turn.other = true →
      isValidMove board hands turn m true = true) := by
  have hcore : isValidMoveCore board hands turn m = true := by
    rw [← isValidMove_false_eq_core]; exact hpass
  constructor
  · rintro ⟨h1, h2⟩
    unfold isValidMove
    simp [hcore, hdrop, hpawn, h1, h2]
  · rintro ⟨h1, h2⟩
    unfold isValidMove
    simp [hcore, hdrop, hpawn, h1, h2]

/-- The C2 scenario: kings far apart, sente holds one Pawn. -/
def c2Board : BoardState :=
  place (place emptyBoard 4 8 .King .sente) 0 0 .King .gote

/-- The C2 move: sente drops the Pawn on (4,4). -/
def c2Move : Move :=
  { fromSq := .hand, toSq := ⟨4, 4⟩, piece := .Pawn,
    drop := true, isPromoted := false }

/-- C2 witness at a concrete legal Pawn drop. -/
theorem c2_uchifuzume_witness :
    (isKingInCheck (applyMove c2Board onePawnHand c2Move .sente).board
          Player.sente.other = true ∧
        hasLegalMoves (applyMove c2Board onePawnHand c2Move .sente).board
          (applyMove c2Board onePawnHand c2Move .sente).hands
          Player.sente.other = false →
      isValidMove c2Board onePawnHand .sente c2Move true = false) ∧
    (isKingInCheck (applyMove c2Board onePawnHand c2Move .sente).board
          Player.sente.other = true ∧
        hasLegalMoves (applyMove c2Board onePawnHand c2Move .sente).board
          (applyMove c2Board onePawnHand c2Move .sente).hands
          Player.sente.other = true →
      isValidMove c2Board onePawnHand .sente c2Move true = true) :=
  c2_uchifuzume c2Board onePawnHand .sente c2Move rfl rfl (by decide)

end Shogi

namespace Shogi

/-- Two-character field template of the amended C8 claim: a value under
10 is preceded by the pad character, otherwise printed as is. -/
def twoPad (c : Char) (n : Nat) : String :=
  if n < 10 then String.mk [c] ++ toString n else toString n

/-- `padStart(2, ' ')` agrees with the two-character template for
values below 100. -/
theorem padStart2_space : ∀ n : Nat, n < 100 →
    padStartStr (toString n) 2 ' ' = twoPad ' ' n := by
  decide

/-- `padStart(2, '0')` agrees with the two-character template for
values below 100. -/
theorem padStart2_zero : ∀ n : Nat, n < 100 →
    padStartStr (toString n) 2 '0' = twoPad '0' n := by
  decide

/-- C8 counterexample: exporting one untimed ply yields the
space-padded annotation `(  0:00/00:00:00)`, not the claimed
zero-padded `( 00:00/00:00:00)`. -/
theorem c8_counterexample :
    exportKIF [pawnPush] createInitialBoard none none none none none none none =
      "手合割：平手\n先手：不明\n後手：不明\n手数----指手---------消費時間--\n   1 ５六歩(57)          (  0:00/00:00:00)\n\n" ∧
    ¬ (exportKIF [pawnPush] createInitialBoard none none none none none none none =
      "手合割：平手\n先手：不明\n後手：不明\n手数----指手---------消費時間--\n   1 ５六歩(57)          ( 00:00/00:00:00)\n\n") := by
  decide

/-- C8 (amended): every ply line ends with the time field followed by a
newline; the field has the shape `( m:ss/HH:MM:SS)` where the minutes
are **space**-padded to two characters and the other components are
zero-padded; an absent time yields `(  0:00/00:00:00)`. -/
theorem c8_kif_time_format (now total : Nat)
    (hn : now < 6000) (ht : total < 360000) :
    kifTimeStr none = "(  0:00/00:00:00)" ∧
    kifTimeStr (some ⟨now, total⟩) =
      "( " ++ (twoPad ' ' (now / 60) ++ ":" ++ twoPad '0' (now % 60)) ++ "/" ++
        (twoPad '0' (total / 3600) ++ ":" ++ twoPad '0' (total % 3600 / 60) ++ ":" ++
          twoPad '0' (total % 60)) ++ ")" ∧
    ∀ (num : Nat) (prev : Option Move) (mv : Move),
      ∃ s, kifMoveLine num prev mv = (s ++ kifTimeStr mv.time) ++ "\n" := by
  refine ⟨by decide, ?_, fun num prev mv => ⟨_, rfl⟩⟩
  have h1 : now / 60 < 100 := Nat.div_lt_of_lt_mul (by omega)
  have h2 : now % 60 < 100 := lt_of_lt_of_le (Nat.mod_lt _ (by omega)) (by omega)
  have h3 : total / 3600 < 100 := Nat.div_lt_of_lt_mul (by omega)
  have h4 : total % 3600 / 60 < 100 := by
    have hh : total % 3600 < 3600 := Nat.mod_lt _ (by omega)
    have := Nat.div_lt_of_lt_mul (show total % 3600 < 60 * 60 by omega)
    omega
  have h5 : total % 60 < 100 := lt_of_lt_of_le (Nat.mod_lt _ (by omega)) (by omega)
  show "( " ++ (padStartStr (toString (now / 60)) 2 ' ' ++ ":" ++
      padStartStr (toString (now % 60)) 2 '0') ++ "/" ++
      (padStartStr (toString (total / 3600)) 2 '0' ++ ":" ++
        padStartStr (toString (total % 3600 / 60)) 2 '0' ++ ":" ++
        padStartStr (toString (total % 60)) 2 '0') ++ ")" = _
  rw [padStart2_space _ h1, padStart2_zero _ h2, padStart2_zero _ h3,
    padStart2_zero _ h4, padStart2_zero _ h5]

/-- C8 witness: a concrete timed move renders with the space-padded
minutes field. -/
theorem c8_kif_time_format_witness :
    kifTimeStr (some ⟨65, 125⟩) =
      "( " ++ (twoPad ' ' (65 / 60) ++ ":" ++ twoPad '0' (65 % 60)) ++ "/" ++
        (twoPad '0' (125 / 3600) ++ ":" ++ twoPad '0' (125 % 3600 / 60) ++ ":" ++
          twoPad '0' (125 % 60)) ++ ")" :=
  (c8_kif_time_format 65 125 (by decide) (by decide)).2.1

end Shogi

namespace Shogi

/-- Score contribution of one square in the nyugyoku board scan. -/
def nyuScoreF (board : BoardState) (player : Player) (sq : Nat × Nat) : Nat :=
  match getCell board sq.1 sq.2 with
  | some p =>
    if p.owner = player then
      if p.type = PieceType.King then 0
      else if nyugyokuIsZone player sq.2 then piecePoints p.type else 0
    else 0
  | none => 0

/-- Whether one square counts toward `piecesInZone`. -/
def nyuCountF (board : BoardState) (player : Player) (sq : Nat × Nat) : Bool :=
  match getCell board sq.1 sq.2 with
  | some p =>
    decide (p.owner = player) && !decide (p.type = PieceType.King) &&
      nyugyokuIsZone player sq.2
  | none => false

/-- Whether one square holds the player's king inside the zone. -/
def nyuKingF (board : BoardState) (player : Player) (sq : Nat × Nat) : Bool :=
  match getCell board sq.1 sq.2 with
  | some p =>
    decide (p.owner = player) && decide (p.type = PieceType.King) &&
      nyugyokuIsZone player sq.2
  | none => false

/-- The nyugyoku scan step acts componentwise. -/
theorem nyugyokuStep_eq (board : BoardState) (player : Player)
    (acc : Nat × Nat × Bool) (sq : Nat × Nat) :
    nyugyokuStep board player acc sq =
      (acc.1 + nyuScoreF board player sq,
       acc.2.1 + (if nyuCountF board player sq then 1 else 0),
       acc.2.2 || nyuKingF board player sq) := by
  unfold nyugyokuStep nyuScoreF nyuCountF nyuKingF
  rcases hc : getCell board sq.1 sq.2 with _ | p
  · simp
  · by_cases h1 : p.owner = player
    · by_cases h2 : p.type = PieceType.King
      · cases hz : nyugyokuIsZone player sq.2 <;> simp [h1, h2, hz]
      · cases hz : nyugyokuIsZone player sq.2 <;> simp [h1, h2, hz]
    · simp [h1]

/-- The nyugyoku board fold computes a sum, a count and a disjunction. -/
theorem nyu_foldl (board : BoardState) (player : Player) :
    ∀ (l : List (Nat × Nat)) (init : Nat × Nat × Bool),
    l.foldl (nyugyokuStep board player) init =
      (init.1 + (l.map (nyuScoreF board player)).sum,
       init.2.1 + l.countP (nyuCountF board player),
       init.2.2 || l.any (nyuKingF board player))
  | [], init => by simp
  | sq :: rest, init => by
    rw [List.foldl_cons, nyu_foldl board player rest, nyugyokuStep_eq]
    simp only [List.map_cons, List.sum_cons, List.countP_cons, List.any_cons,
      Prod.mk.injEq]
    refine ⟨by omega, by omega, ?_⟩
    cases init.2.2 <;> simp [Bool.or_assoc]

/-- The nyugyoku hand fold computes a plain weighted sum. -/
theorem nyu_hand_foldl (hands : Hands) (player : Player) :
    ∀ (l : List PieceType) (init : Nat),
    l.foldl (nyugyokuHandStep hands player) init =
      init + (l.map fun t => hands.get player t * piecePoints t).sum
  | [], init => by simp
  | t :: rest, init => by
    rw [List.foldl_cons, nyu_hand_foldl hands player rest]
    unfold nyugyokuHandStep
    by_cases h : 0 < hands.get player t
    · simp only [h, if_true, List.map_cons, List.sum_cons]
      omega
    · have h0 : hands.get player t = 0 := by omega
      simp [h, h0]

/-- Promotion-zone membership as the claim states it: the opponent's
three home ranks. -/
def zonePSpec (player : Player) (y : Nat) : Prop :=
  if player = .sente then y ≤ 2 else 6 ≤ y

instance (player : Player) (y : Nat) : Decidable (zonePSpec player y) := by
  unfold zonePSpec; infer_instance

/-- The four 5-point piece kinds of the claim. -/
def bigPieceSpec (t : PieceType) : Prop :=
  t = .Bishop ∨ t = .Horse ∨ t = .Rook ∨ t = .Dragon

instance (t : PieceType) : Decidable (bigPieceSpec t) := by
  unfold bigPieceSpec; infer_instance

/-- Point value as the claim states it: 5 for Bishop/Horse/Rook/Dragon,
0 for the King (which the claim never scores), 1 otherwise. -/
def pointValSpec (t : PieceType) : Nat :=
  if bigPieceSpec t then 5 else if t = .King then 0 else 1

/-- The source's point table agrees with the claim's. -/
theorem piecePoints_eq_pointValSpec : ∀ t, piecePoints t = pointValSpec t := by
  decide

/-- Claim-side per-square score: the point value of a non-king piece of
the player inside the zone. -/
def zoneScoreSpecF (board : BoardState) (player : Player) (sq : Nat × Nat) : Nat :=
  match getCell board sq.1 sq.2 with
  | some p =>
    if p.owner = player ∧ ¬p.type = PieceType.King ∧ zonePSpec player sq.2 then
      pointValSpec p.type
    else 0
  | none => 0

/-- Claim-side board score: point values of the player's non-king
pieces inside the zone. -/
def zoneScoreSpec (board : BoardState) (player : Player) : Nat :=
  (allSquaresYX.map (zoneScoreSpecF board player)).sum

/-- Claim-side per-square census test: a non-king piece of the player
inside the zone. -/
def zoneCountSpecF (board : BoardState) (player : Player) (sq : Nat × Nat) : Bool :=
  match getCell board sq.1 sq.2 with
  | some p =>
    decide (p.owner = player ∧ ¬p.type = PieceType.King ∧ zonePSpec player sq.2)
  | none => false

/-- Claim-side zone census: the player's non-king pieces inside the
zone. -/
def zoneCountSpec (board : BoardState) (player : Player) : Nat :=
  allSquaresYX.countP (zoneCountSpecF board player)

/-- Claim-side king test: the player's king sits inside the zone. -/
def kingInZoneSpec (board : BoardState) (player : Player) : Prop :=
  ∃ x y p, getCell board x y = some p ∧ p.owner = player ∧
    p.type = PieceType.King ∧ zonePSpec player y

/-- Claim-side hand score: `count × point value` over all held types. -/
def handScoreSpec (hands : Hands) (player : Player) : Nat :=
  (allPieceTypes.map fun t => hands.get player t * pointValSpec t).sum

/-- The claim's zone predicate is the source's `isZone`. -/
theorem zonePSpec_iff (player : Player) (y : Nat) :
    zonePSpec player y ↔ nyugyokuIsZone player y = true := by
  cases player <;> simp [zonePSpec, nyugyokuIsZone]

/-- Membership in the square enumeration is exactly in-range-ness. -/
theorem mem_allSquaresYX {a b : Nat} : (a, b) ∈ allSquaresYX ↔ a < 9 ∧ b < 9 := by
  unfold allSquaresYX
  simp only [List.mem_flatMap, List.mem_map, List.mem_range]
  constructor
  · rintro ⟨y, hy, x, hx, heq⟩
    rw [Prod.mk.injEq] at heq
    obtain ⟨rfl, rfl⟩ := heq
    exact ⟨hx, hy⟩
  · rintro ⟨ha, hb⟩
    exact ⟨b, hb, a, ha, rfl⟩

/-- The two per-square score functions agree. -/
theorem zoneScoreSpecF_eq (board : BoardState) (player : Player) (sq : Nat × Nat) :
    zoneScoreSpecF board player sq = nyuScoreF board player sq := by
  unfold zoneScoreSpecF nyuScoreF
  rcases hc : getCell board sq.1 sq.2 with _ | p
  · rfl
  · by_cases h1 : p.owner = player
    · by_cases h2 : p.type = PieceType.King
      · simp [h1, h2]
      · by_cases hz : zonePSpec player sq.2
        · simp [h1, h2, hz, (zonePSpec_iff player sq.2).1 hz,
            piecePoints_eq_pointValSpec]
        · have hz' : nyugyokuIsZone player sq.2 = false := by
            rcases hb : nyugyokuIsZone player sq.2
            · rfl
            · exact absurd ((zonePSpec_iff player sq.2).2 hb) hz
          simp [h1, h2, hz, hz']
    · simp [h1]

/-- The claim-side board score is the scan's score sum. -/
theorem zoneScoreSpec_eq (board : BoardState) (player : Player) :
    zoneScoreSpec board player = (allSquaresYX.map (nyuScoreF board player)).sum := by
  unfold zoneScoreSpec
  rw [show zoneScoreSpecF board player = nyuScoreF board player from
    funext fun sq => zoneScoreSpecF_eq board player sq]

/-- The two per-square census tests agree. -/
theorem zoneCountSpecF_eq (board : BoardState) (player : Player) (sq : Nat × Nat) :
    zoneCountSpecF board player sq = nyuCountF board player sq := by
  unfold zoneCountSpecF nyuCountF
  rcases hc : getCell board sq.1 sq.2 with _ | p
  · rfl
  · by_cases h1 : p.owner = player
    · by_cases h2 : p.type = PieceType.King
      · simp [h1, h2]
      · rcases hb : nyugyokuIsZone player sq.2
        · have hz : ¬zonePSpec player sq.2 := fun hz =>
            by rw [(zonePSpec_iff player sq.2).1 hz] at hb; cases hb
          simp [h1, h2, hz, hb]
        · simp [h1, h2, (zonePSpec_iff player sq.2).2 hb, hb]
    · simp [h1]

/-- The claim-side census is the scan's count. -/
theorem zoneCountSpec_eq (board : BoardState) (player : Player) :
    zoneCountSpec board player = allSquaresYX.countP (nyuCountF board player) := by
  unfold zoneCountSpec
  rw [show zoneCountSpecF board player = nyuCountF board player from
    funext fun sq => zoneCountSpecF_eq board player sq]

/-- The claim-side king test is the scan's king disjunct. -/
theorem kingInZoneSpec_iff (board : BoardState) (player : Player) :
    allSquaresYX.any (nyuKingF board player) = true ↔ kingInZoneSpec board player := by
  rw [List.any_eq_true]
  constructor
  · rintro ⟨sq, hmem, hF⟩
    unfold nyuKingF at hF
    rcases hc : getCell board sq.1 sq.2 with _ | p
    · rw [hc] at hF; exact absurd hF (by simp)
    · rw [hc] at hF
      simp only [Bool.and_eq_true, decide_eq_true_eq] at hF
      exact ⟨sq.1, sq.2, p, hc, hF.1.1, hF.1.2, (zonePSpec_iff player sq.2).2 hF.2⟩
  · rintro ⟨x, y, p, hc, ho, ht, hz⟩
    refine ⟨(x, y), mem_allSquaresYX.2 ⟨(getCell_some_lt hc).1, (getCell_some_lt hc).2⟩, ?_⟩
    unfold nyuKingF
    simp [hc, ho, ht, (zonePSpec_iff player y).1 hz]

/-- C6: `canDeclare` holds exactly when the king is in the opponent's
three home ranks, at least 10 of the player's non-king board pieces are
in that zone, and the score — zone piece points plus hand points —
reaches 28 for sente / 27 for gote; hand pieces feed the score but
never `piecesInZone`. -/
theorem c6_nyugyoku_declare (board : BoardState) (hands : Hands) (player : Player) :
    ((getNyugyokuState board hands player).canDeclare = true ↔
      (kingInZoneSpec board player ∧ 10 ≤ zoneCountSpec board player ∧
        (if player = .sente then 28 else 27) ≤
          zoneScoreSpec board player + handScoreSpec hands player)) ∧
    (getNyugyokuState board hands player).score =
      zoneScoreSpec board player + handScoreSpec hands player ∧
    (getNyugyokuState board hands player).piecesInZone = zoneCountSpec board player := by
  have hfold := nyu_foldl board player allSquaresYX (0, 0, false)
  have hhand := nyu_hand_foldl hands player allPieceTypes 0
  have hhs : handScoreSpec hands player =
      (allPieceTypes.map fun t => hands.get player t * piecePoints t).sum := by
    unfold handScoreSpec
    congr 1
  simp only [getNyugyokuState, hfold, hhand]
  rw [zoneScoreSpec_eq, zoneCountSpec_eq, hhs]
  refine ⟨?_, by omega, by omega⟩
  simp only [Nat.zero_add, Bool.false_or, Bool.and_eq_true, decide_eq_true_eq]
  rw [kingInZoneSpec_iff]
  constructor
  · rintro ⟨⟨hk, hc⟩, hs⟩
    exact ⟨hk, hc, by omega⟩
  · rintro ⟨hk, hc, hs⟩
    exact ⟨⟨hk, hc⟩, by omega⟩

end Shogi

namespace Shogi

/-- Contribution of one cell to a (player, base-type) census. -/
def cellWeight (pl : Player) (bt : PieceType) : Option Piece → Nat
  | some p => if p.owner = pl ∧ getReversePieceType p.type = bt then 1 else 0
  | none => 0

/-- How many of `pl`'s pieces on the board normalize to base type `bt`. -/
def boardBaseCount (board : BoardState) (pl : Player) (bt : PieceType) : Nat :=
  Finset.sum Finset.univ fun sq : Square => cellWeight pl bt (board sq)

/-- One player's conserved quantity for one base type: normalized board
census plus hand count. -/
def playerTotal (board : BoardState) (hands : Hands) (pl : Player) (bt : PieceType) : Nat :=
  boardBaseCount board pl bt + hands.get pl bt

/-- Summing a cell census across a point update exchanges the old cell
weight for the new one. -/
theorem sum_cellWeight_update (board : BoardState) (k : Square) (v : Option Piece)
    (pl : Player) (bt : PieceType) :
    (Finset.sum Finset.univ fun sq : Square =>
        cellWeight pl bt (Function.update board k v sq)) + cellWeight pl bt (board k)
      = (Finset.sum Finset.univ fun sq : Square => cellWeight pl bt (board sq)) +
          cellWeight pl bt v := by
  have h1 : (fun sq => cellWeight pl bt (Function.update board k v sq))
      = Function.update (fun sq => cellWeight pl bt (board sq)) k (cellWeight pl bt v) := by
    funext sq
    by_cases h : sq = k
    · subst h; simp
    · simp [Function.update_noteq h]
  rw [h1, Finset.sum_update_of_mem (Finset.mem_univ k),
    Finset.sum_eq_sum_diff_singleton_add (Finset.mem_univ k)
      (fun sq => cellWeight pl bt (board sq))]
  omega

/-- In-range `getCell` is a plain lookup. -/
theorem getCell_in_range (board : BoardState) {x y : Nat} (hx : x < 9) (hy : y < 9) :
    getCell board x y = board (⟨y, hy⟩, ⟨x, hx⟩) := by
  unfold getCell
  rw [dif_pos ⟨hx, hy⟩]

/-- Census across an in-range `setCell`. -/
theorem boardBaseCount_setCell (board : BoardState) {x y : Nat}
    (hx : x < 9) (hy : y < 9) (v : Option Piece) (pl : Player) (bt : PieceType) :
    boardBaseCount (setCell board x y v) pl bt + cellWeight pl bt (getCell board x y)
      = boardBaseCount board pl bt + cellWeight pl bt v := by
  unfold boardBaseCount setCell
  rw [dif_pos ⟨hx, hy⟩, getCell_in_range board hx hy]
  exact sum_cellWeight_update board (⟨y, hy⟩, ⟨x, hx⟩) v pl bt

/-- `setCell` elsewhere does not change a cell. -/
theorem getCell_setCell_ne (board : BoardState) (x y x' y' : Nat) (v : Option Piece)
    (h : ¬(x' = x ∧ y' = y)) :
    getCell (setCell board x y v) x' y' = getCell board x' y' := by
  unfold setCell
  by_cases hin : x < 9 ∧ y < 9
  · rw [dif_pos hin]
    by_cases hin' : x' < 9 ∧ y' < 9
    · rw [getCell_in_range _ hin'.1 hin'.2, getCell_in_range board hin'.1 hin'.2]
      have hk : ((⟨y', hin'.2⟩, ⟨x', hin'.1⟩) : Square) ≠ (⟨y, hin.2⟩, ⟨x, hin.1⟩) := by
        intro he
        rw [Prod.mk.injEq, Fin.mk.injEq, Fin.mk.injEq] at he
        exact h ⟨he.2, he.1⟩
      exact congrFun (rfl : Function.update board _ v = _) _ ▸
        Function.update_noteq hk v board
    · unfold getCell
      rw [dif_neg hin', dif_neg hin']
  · rw [dif_neg hin]

/-- Hand lookup across `Hands.modify`. -/
theorem Hands.get_modify (h : Hands) (pl pl' : Player) (t t' : PieceType)
    (f : Nat → Nat) :
    (h.modify pl t f).get pl' t' =
      if pl' = pl ∧ t' = t then f (h.get pl t) else h.get pl' t' := by
  cases pl <;> cases pl' <;>
    simp [Hands.modify, Hands.get, Function.update_apply]

/-- Promoting never changes the base type. -/
theorem reverse_promote : ∀ t, getReversePieceType (promotePiece t) = getReversePieceType t := by
  decide

/-- Normalizing is idempotent. -/
theorem reverse_reverse :
    ∀ t, getReversePieceType (getReversePieceType t) = getReversePieceType t := by
  decide

/-- Hands that hold only base types (every reachable game state does;
captures revert to the base type and drops only remove). -/
def handsBaseOnly (hands : Hands) : Prop :=
  ∀ pl t, getReversePieceType t ≠ t → hands.get pl t = 0

/-- A full game state. -/
structure GameState where
  board : BoardState
  hands : Hands
  turn : Player

/-- States reachable from the standard initial position through moves
accepted by `isValidMove` and applied by `applyMove`. -/
inductive Reachable : GameState → Prop where
  | init : Reachable ⟨createInitialBoard, emptyHands, .sente⟩
  | step (s : GameState) (m : Move) (flag : Bool) (hr : Reachable s)
      (hv : isValidMove s.board s.hands s.turn m flag = true) :
      Reachable ⟨(applyMove s.board s.hands m s.turn).board,
        (applyMove s.board s.hands m s.turn).hands,
        (applyMove s.board s.hands m s.turn).turn⟩

/-- A hand update keeps hands base-only when the updated slot either
becomes zero or is itself a base type. -/
theorem handsBaseOnly_modify (hands : Hands) (h : handsBaseOnly hands)
    (turn : Player) (t0 : PieceType) (f : Nat → Nat)
    (hf : f (hands.get turn t0) = 0 ∨ getReversePieceType t0 = t0) :
    handsBaseOnly (hands.modify turn t0 f) := by
  intro pl t ht
  rw [Hands.get_modify]
  split
  · next hcond =>
    rcases hf with hf | hf
    · exact hf
    · exact absurd (hcond.2 ▸ hf) ht
  · exact h pl t ht

/-- `applyMove` keeps hands free of promoted types. -/
theorem applyMove_handsBaseOnly (board : BoardState) (hands : Hands) (m : Move)
    (turn : Player) (h : handsBaseOnly hands) :
    handsBaseOnly (applyMove board hands m turn).hands := by
  cases hdrop : m.drop
  · rcases hfrom : m.fromSq with _ | c
    · have hh : (applyMove board hands m turn).hands = hands := by
        simp [applyMove, hdrop, hfrom]
      rw [hh]; exact h
    · rcases hpc : getCell board c.x c.y with _ | p
      · have hh : (applyMove board hands m turn).hands = hands := by
          simp [applyMove, hdrop, hfrom, hpc]
        rw [hh]; exact h
      · rcases htgt : getCell board m.toSq.x m.toSq.y with _ | tp
        · have hh : (applyMove board hands m turn).hands = hands := by
            simp [applyMove, hdrop, hfrom, hpc, htgt]
          rw [hh]; exact h
        · have hh : (applyMove board hands m turn).hands =
              hands.modify turn (getReversePieceType tp.type) (· + 1) := by
            simp [applyMove, hdrop, hfrom, hpc, htgt]
          rw [hh]
          exact handsBaseOnly_modify hands h turn _ _ (Or.inr (reverse_reverse tp.type))
  · rcases hfrom : m.fromSq with _ | c
    · have hh : (applyMove board hands m turn).hands =
          hands.modify turn m.piece (· - 1) := by
        simp [applyMove, hdrop, hfrom]
      rw [hh]
      by_cases hb : getReversePieceType m.piece = m.piece
      · exact handsBaseOnly_modify hands h turn _ _ (Or.inr hb)
      · refine handsBaseOnly_modify hands h turn _ _ (Or.inl ?_)
        rw [h turn m.piece hb]
    · have hh : (applyMove board hands m turn).hands = hands := by
        simp [applyMove, hdrop, hfrom]
      rw [hh]; exact h

/-- Every reachable state's hands hold only base types. -/
theorem reachable_handsBaseOnly (s : GameState) (h : Reachable s) :
    handsBaseOnly s.hands := by
  induction h with
  | init =>
    intro pl t _
    cases pl <;> rfl
  | step s m flag hr hv ih =>
    exact applyMove_handsBaseOnly s.board s.hands m s.turn ih

end Shogi

namespace Shogi

/-- A real drop (validated: empty target, positive hand count of a base
type) moves one unit from the hand census to the board census and
leaves every per-player total unchanged. -/
theorem playerTotal_apply_drop (board : BoardState) (hands : Hands) (turn : Player)
    (m : Move) (bt : PieceType)
    (hdrop : m.drop = true) (hfrom : m.fromSq = FromField.hand)
    (htgt : getCell board m.toSq.x m.toSq.y = none)
    (hx : m.toSq.x < 9) (hy : m.toSq.y < 9)
    (hcount : 0 < hands.get turn m.piece)
    (hbp : getReversePieceType m.piece = m.piece) (pl : Player) :
    playerTotal (applyMove board hands m turn).board
        (applyMove board hands m turn).hands pl bt
      = playerTotal board hands pl bt := by
  have happb : (applyMove board hands m turn).board =
      setCell board m.toSq.x m.toSq.y (some ⟨m.piece, turn, false⟩) := by
    simp [applyMove, hdrop, hfrom]
  have happh : (applyMove board hands m turn).hands =
      hands.modify turn m.piece (· - 1) := by
    simp [applyMove, hdrop, hfrom]
  have hw : cellWeight pl bt (some ⟨m.piece, turn, false⟩) =
      if pl = turn ∧ bt = m.piece then 1 else 0 := by
    simp only [cellWeight, hbp]
    by_cases h1 : pl = turn
    · by_cases h2 : bt = m.piece
      · simp [h1, h2]
      · simp [h1, h2, Ne.symm h2]
    · by_cases h2 : bt = m.piece
      · simp [h1, h2, Ne.symm h1]
      · simp [h1, h2, Ne.symm h1]
  have hc := boardBaseCount_setCell board hx hy (some ⟨m.piece, turn, false⟩) pl bt
  rw [htgt, hw] at hc
  rw [playerTotal, playerTotal, happb, happh]
  simp only [Hands.get_modify]
  by_cases hcond : pl = turn ∧ bt = m.piece
  · obtain ⟨rfl, rfl⟩ := hcond
    rw [if_pos ⟨rfl, rfl⟩] at hc
    rw [if_pos ⟨rfl, rfl⟩]
    simp only [cellWeight] at hc
    omega
  · rw [if_neg hcond] at hc
    rw [if_neg hcond]
    simp only [cellWeight] at hc
    omega

/-- A non-capturing board move relocates one piece without changing its
owner or base type: every per-player total is unchanged. -/
theorem playerTotal_apply_move_nocap (board : BoardState) (hands : Hands)
    (turn : Player) (m : Move) (bt : PieceType) (c : Coordinates) (p : Piece)
    (hdrop : m.drop = false) (hfrom : m.fromSq = FromField.coord c)
    (hpc : getCell board c.x c.y = some p)
    (htgt : getCell board m.toSq.x m.toSq.y = none)
    (hx : m.toSq.x < 9) (hy : m.toSq.y < 9) (pl : Player) :
    playerTotal (applyMove board hands m turn).board
        (applyMove board hands m turn).hands pl bt
      = playerTotal board hands pl bt := by
  have hfx := (getCell_some_lt hpc).1
  have hfy := (getCell_some_lt hpc).2
  have happb : (applyMove board hands m turn).board =
      setCell (setCell board m.toSq.x m.toSq.y
        (some ⟨if m.isPromoted = true then promotePiece p.type else p.type,
          p.owner, m.isPromoted || p.isPromoted⟩)) c.x c.y none := by
    simp [applyMove, hdrop, hfrom, hpc, htgt]
  have happh : (applyMove board hands m turn).hands = hands := by
    simp [applyMove, hdrop, hfrom, hpc, htgt]
  have hne : ¬(c.x = m.toSq.x ∧ c.y = m.toSq.y) := by
    rintro ⟨e1, e2⟩
    rw [e1, e2, htgt] at hpc
    cases hpc
  have hw : cellWeight pl bt
      (some ⟨if m.isPromoted = true then promotePiece p.type else p.type,
        p.owner, m.isPromoted || p.isPromoted⟩) = cellWeight pl bt (some p) := by
    simp only [cellWeight]
    cases hip : m.isPromoted <;> simp [reverse_promote]
  have h1 := boardBaseCount_setCell board hx hy
    (some ⟨if m.isPromoted = true then promotePiece p.type else p.type,
      p.owner, m.isPromoted || p.isPromoted⟩) pl bt
  rw [htgt, hw] at h1
  have h2 := boardBaseCount_setCell
    (setCell board m.toSq.x m.toSq.y
      (some ⟨if m.isPromoted = true then promotePiece p.type else p.type,
        p.owner, m.isPromoted || p.isPromoted⟩)) hfx hfy none pl bt
  rw [getCell_setCell_ne board m.toSq.x m.toSq.y c.x c.y
    (some ⟨if m.isPromoted = true then promotePiece p.type else p.type,
      p.owner, m.isPromoted || p.isPromoted⟩) hne, hpc] at h2
  rw [playerTotal, playerTotal, happb, happh]
  simp only [cellWeight] at h1 h2
  omega

/-- A capturing board move transfers the captured piece's base-type
unit from the victim's board census to the capturer's hand: the total
over both players is unchanged. -/
theorem total_apply_move_capture (board : BoardState) (hands : Hands)
    (turn : Player) (m : Move) (bt : PieceType) (c : Coordinates) (p tp : Piece)
    (hdrop : m.drop = false) (hfrom : m.fromSq = FromField.coord c)
    (hpc : getCell board c.x c.y = some p)
    (htgt : getCell board m.toSq.x m.toSq.y = some tp)
    (howner : p.owner = turn) (hto : ¬tp.owner = turn)
    (hx : m.toSq.x < 9) (hy : m.toSq.y < 9) :
    playerTotal (applyMove board hands m turn).board
        (applyMove board hands m turn).hands .sente bt +
      playerTotal (applyMove board hands m turn).board
        (applyMove board hands m turn).hands .gote bt
      = playerTotal board hands .sente bt + playerTotal board hands .gote bt := by
  have hfx := (getCell_some_lt hpc).1
  have hfy := (getCell_some_lt hpc).2
  have happb : (applyMove board hands m turn).board =
      setCell (setCell board m.toSq.x m.toSq.y
        (some ⟨if m.isPromoted = true then promotePiece p.type else p.type,
          p.owner, m.isPromoted || p.isPromoted⟩)) c.x c.y none := by
    simp [applyMove, hdrop, hfrom, hpc, htgt]
  have happh : (applyMove board hands m turn).hands =
      hands.modify turn (getReversePieceType tp.type) (· + 1) := by
    simp [applyMove, hdrop, hfrom, hpc, htgt]
  have hne : ¬(c.x = m.toSq.x ∧ c.y = m.toSq.y) := by
    rintro ⟨e1, e2⟩
    rw [e1, e2, htgt] at hpc
    injection hpc with he
    exact hto (by rw [he]; exact howner)
  have hw : ∀ pl, cellWeight pl bt
      (some ⟨if m.isPromoted = true then promotePiece p.type else p.type,
        p.owner, m.isPromoted || p.isPromoted⟩) = cellWeight pl bt (some p) := by
    intro pl
    simp only [cellWeight]
    cases hip : m.isPromoted <;> simp [reverse_promote]
  have h1 := fun pl => boardBaseCount_setCell board hx hy
    (some ⟨if m.isPromoted = true then promotePiece p.type else p.type,
      p.owner, m.isPromoted || p.isPromoted⟩) pl bt
  have h2 := fun pl => boardBaseCount_setCell
    (setCell board m.toSq.x m.toSq.y
      (some ⟨if m.isPromoted = true then promotePiece p.type else p.type,
        p.owner, m.isPromoted || p.isPromoted⟩)) hfx hfy none pl bt
  have h1s := h1 .sente
  have h1g := h1 .gote
  have h2s := h2 .sente
  have h2g := h2 .gote
  rw [htgt, hw .sente] at h1s
  rw [htgt, hw .gote] at h1g
  rw [getCell_setCell_ne board m.toSq.x m.toSq.y c.x c.y
    (some ⟨if m.isPromoted = true then promotePiece p.type else p.type,
      p.owner, m.isPromoted || p.isPromoted⟩) hne, hpc] at h2s
  rw [getCell_setCell_ne board m.toSq.x m.toSq.y c.x c.y
    (some ⟨if m.isPromoted = true then promotePiece p.type else p.type,
      p.owner, m.isPromoted || p.isPromoted⟩) hne, hpc] at h2g
  have hwnone : ∀ pl, cellWeight pl bt (none : Option Piece) = 0 := fun _ => rfl
  rw [hwnone .sente] at h2s
  rw [hwnone .gote] at h2g
  rw [playerTotal, playerTotal, playerTotal, playerTotal, happb, happh]
  simp only [Hands.get_modify]
  by_cases hbt : getReversePieceType tp.type = bt
  · cases turn with
    | sente =>
      have htpo : tp.owner = .gote := by
        cases hh : tp.owner
        · exact absurd hh hto
        · rfl
      have hwtps : cellWeight Player.sente bt (some tp) = 0 := by
        simp [cellWeight, htpo]
      have hwtpg : cellWeight Player.gote bt (some tp) = 1 := by
        simp [cellWeight, htpo, hbt]
      rw [hwtps] at h1s
      rw [hwtpg] at h1g
      rw [hbt]
      simp
      omega
    | gote =>
      have htpo : tp.owner = .sente := by
        cases hh : tp.owner
        · rfl
        · exact absurd hh hto
      have hwtps : cellWeight Player.sente bt (some tp) = 1 := by
        simp [cellWeight, htpo, hbt]
      have hwtpg : cellWeight Player.gote bt (some tp) = 0 := by
        simp [cellWeight, htpo]
      rw [hwtps] at h1s
      rw [hwtpg] at h1g
      rw [hbt]
      simp
      omega
  · have hbt' : ¬bt = getReversePieceType tp.type := fun he => hbt he.symm
    have hwtp : ∀ pl, cellWeight pl bt (some tp) = 0 := by
      intro pl
      simp [cellWeight, hbt]
    rw [hwtp .sente] at h1s
    rw [hwtp .gote] at h1g
    simp only [hbt', and_false, if_false]
    omega

end Shogi

namespace Shogi

/-- C3: along reachable states, any move accepted by `isValidMove`
preserves, for every base type, the two-player total of normalized
board census plus hand count; and when no capture happens (any drop, or
a board move onto an empty square) each single player's total is
already unchanged. -/
theorem c3_conservation (s : GameState) (hr : Reachable s) (m : Move)
    (flag : Bool) (bt : PieceType)
    (hv : isValidMove s.board s.hands s.turn m flag = true) :
    (playerTotal (applyMove s.board s.hands m s.turn).board
        (applyMove s.board s.hands m s.turn).hands .sente bt +
      playerTotal (applyMove s.board s.hands m s.turn).board
        (applyMove s.board s.hands m s.turn).hands .gote bt
      = playerTotal s.board s.hands .sente bt +
        playerTotal s.board s.hands .gote bt) ∧
    ((m.drop = true ∨ getCell s.board m.toSq.x m.toSq.y = none) →
      ∀ pl, playerTotal (applyMove s.board s.hands m s.turn).board
          (applyMove s.board s.hands m s.turn).hands pl bt
        = playerTotal s.board s.hands pl bt) := by
  have hbase := reachable_handsBaseOnly s hr
  have hcore : isValidMoveCore s.board s.hands s.turn m = true := by
    unfold isValidMove at hv
    simp only [Bool.and_eq_true] at hv
    exact hv.1
  unfold isValidMoveCore at hcore
  simp only [Bool.and_eq_true, decide_eq_true_eq, Bool.not_eq_true'] at hcore
  obtain ⟨⟨⟨hA, hB⟩, hC⟩, _⟩ := hcore
  cases hdrop : m.drop with
  | true =>
    rw [if_pos hdrop] at hC
    simp only [Bool.and_eq_true, decide_eq_true_eq, Option.isNone_iff_eq_none] at hC
    obtain ⟨⟨⟨hNone, hCount⟩, _⟩, _⟩ := hC
    rcases hfrom : m.fromSq with _ | c
    · have hbp : getReversePieceType m.piece = m.piece := by
        by_contra hne
        have h0 := hbase s.turn m.piece hne
        omega
      have key := fun pl => playerTotal_apply_drop s.board s.hands s.turn m bt
        hdrop hfrom hNone (by omega) (by omega) hCount hbp pl
      exact ⟨by rw [key .sente, key .gote], fun _ pl => key pl⟩
    · have happ : applyMove s.board s.hands m s.turn =
          ⟨s.board, s.hands, s.turn.other⟩ := by
        simp [applyMove, hdrop, hfrom]
      rw [happ]
      exact ⟨rfl, fun _ _ => rfl⟩
  | false =>
    rw [if_neg (by rw [hdrop]; simp)] at hC
    rcases hfrom : m.fromSq with _ | c
    · rw [hfrom] at hC
      exact absurd hC (by simp)
    · rw [hfrom] at hC
      rcases hpc : getCell s.board c.x c.y with _ | p
      · simp only [hpc] at hC
        exact Bool.noConfusion hC
      · simp only [hpc, Bool.and_eq_true, decide_eq_true_eq] at hC
        obtain ⟨howner, _⟩ := hC
        rcases htgt : getCell s.board m.toSq.x m.toSq.y with _ | tp
        · have key := fun pl => playerTotal_apply_move_nocap s.board s.hands
            s.turn m bt c p hdrop hfrom hpc htgt (by omega) (by omega) pl
          exact ⟨by rw [key .sente, key .gote], fun _ pl => key pl⟩
        · rw [htgt] at hB
          simp only [decide_eq_true_eq] at hB
          refine ⟨total_apply_move_capture s.board s.hands s.turn m bt c p tp
            hdrop hfrom hpc htgt howner hB (by omega) (by omega), ?_⟩
          rintro (h | h)
          · cases h
          · cases h

end Shogi

namespace Shogi

set_option maxRecDepth 100000 in
/-- C3 witness: the opening pawn push from the initial position. -/
theorem c3_conservation_witness :
    (playerTotal (applyMove createInitialBoard emptyHands pawnPush .sente).board
        (applyMove createInitialBoard emptyHands pawnPush .sente).hands .sente .Pawn +
      playerTotal (applyMove createInitialBoard emptyHands pawnPush .sente).board
        (applyMove createInitialBoard emptyHands pawnPush .sente).hands .gote .Pawn
      = playerTotal createInitialBoard emptyHands .sente .Pawn +
        playerTotal createInitialBoard emptyHands .gote .Pawn) ∧
    ((pawnPush.drop = true ∨
        getCell createInitialBoard pawnPush.toSq.x pawnPush.toSq.y = none) →
      ∀ pl, playerTotal (applyMove createInitialBoard emptyHands pawnPush .sente).board
          (applyMove createInitialBoard emptyHands pawnPush .sente).hands pl .Pawn
        = playerTotal createInitialBoard emptyHands pl .Pawn) :=
  c3_conservation ⟨createInitialBoard, emptyHands, .sente⟩ Reachable.init
    pawnPush true .Pawn (by decide)

end Shogi
